import Mathlib

/-!
Verification development for the candle-driven backtest exchange simulator
(`bots/backtest_bot.py`).  The per-candle exchange step, the driver loop and
the order-intake entry points are embedded from the source; the leaf
collaborators that the source imports (`definitions/*`, `helpers/optimized.py`,
`bots/base_bot.py`) are modelled from the specification, as noted on each
definition.  All numeric quantities use `ℚ`.
-/

namespace Backtest

/-! ### Enumerated constants

Modelled from the spec: `definitions/order.py` (not in the sources at hand)
exports the side, position-side, order-type and action constants used by
`backtest_bot.py`.  They are distinct constants within each category; we embed
them as distinct naturals.  `position_side` is a plain machine value, so values
outside `{LONG, SHORT}` are representable, as `create_orders`/`cancel_orders`
require. -/

def LONG : ℕ := 1
def SHORT : ℕ := 2

def BUY : ℕ := 1
def SELL : ℕ := 2

def MARKET : ℕ := 1
def LIMIT : ℕ := 2
def TP : ℕ := 3
def SL : ℕ := 4
def CALCULATED : ℕ := 5

def NEW : ℕ := 1
def PARTIALLY_FILLED : ℕ := 2
def FILLED : ℕ := 3
def CANCELED : ℕ := 4
def LQ : ℕ := 5

/-- Modelled from the spec: a candle `{open, high, low, close, volume}`
(`definitions/candle.py`); the timestamp is carried alongside by the driver.
The field `open` is spelled `open_` because `open` is a Lean keyword. -/
structure Candle where
  open_ : ℚ
  high : ℚ
  low : ℚ
  close : ℚ
  volume : ℚ
deriving DecidableEq

/-- Modelled from the spec: an order (`definitions/order.py`), with the field
order used by `backtest_bot.py`'s `Order(symbol, order_id, price, stop_price,
qty, type, side, timestamp, action, position_side)` constructor calls. -/
structure Order where
  symbol : String
  order_id : ℕ
  price : ℚ
  stop_price : ℚ
  qty : ℚ
  type : ℕ
  side : ℕ
  timestamp : ℚ
  action : ℕ
  position_side : ℕ
deriving DecidableEq

/-- Modelled from the spec: a position (`definitions/position.py`) with the
spec's fields `{symbol, qty, avg_price (price), liquidation_price, leverage,
position_side}`.  The source reads the size both as `.size` and `.qty`; we
keep one field `qty` (see `Position.size`). -/
structure Position where
  symbol : String
  qty : ℚ
  price : ℚ
  liquidation_price : ℚ
  leverage : ℚ
  position_side : ℕ
deriving DecidableEq

/-- The source's `position.size` alias for the position size. -/
def Position.size (p : Position) : ℚ := p.qty

/-- Modelled from the spec: order identity is `client_id + position_side`
(§4.2); deletion and in-place update are keyed on it. -/
def sameIdentity (a b : Order) : Bool :=
  a.order_id == b.order_id && a.position_side == b.position_side

/-- Modelled from the spec: `definitions/order_list.py`, two ordered sequences
keyed by position side. -/
structure OrderList where
  long : List Order
  short : List Order
deriving DecidableEq

def emptyOrderList : OrderList := ⟨[], []⟩

/-- Modelled from the spec: append a batch to the long sequence, preserving
insertion order. -/
def OrderList.add_long (ol : OrderList) (os : List Order) : OrderList :=
  { ol with long := ol.long ++ os }

/-- Modelled from the spec: append a batch to the short sequence. -/
def OrderList.add_short (ol : OrderList) (os : List Order) : OrderList :=
  { ol with short := ol.short ++ os }

/-- Modelled from the spec: delete from the long sequence every order whose
identity matches a member of `set`, stably for the rest. -/
def OrderList.delete_long (ol : OrderList) (set : List Order) : OrderList :=
  { ol with long := ol.long.filter (fun b => !(set.any (fun r => sameIdentity b r))) }

/-- Modelled from the spec: delete from the short sequence by identity. -/
def OrderList.delete_short (ol : OrderList) (set : List Order) : OrderList :=
  { ol with short := ol.short.filter (fun b => !(set.any (fun r => sameIdentity b r))) }

/-! ### Math kernel (`helpers/optimized.py`), modelled from the spec §4.1 -/

/-- Modelled from the spec: `round_down(x, step)` is the largest multiple of
`step` that is `≤ x` (for positive `step`). -/
def round_down (x step : ℚ) : ℚ :=
  if step = 0 then x else step * (⌊x / step⌋ : ℤ)

/-- Modelled from the spec: notional cost of a quantity; for linear contracts
(`inverse = false`) it is `qty * price * contract_multiplier`. -/
def quantity_to_cost (qty price : ℚ) (_inverse : Bool) (c_mult : ℚ) : ℚ :=
  qty * price * c_mult

/-- Modelled from the spec: linear long pnl `(exit - entry) * qty * mult`. -/
def calculate_long_pnl (entry exit_ qty : ℚ) (_inverse : Bool) (c_mult : ℚ) : ℚ :=
  (exit_ - entry) * qty * c_mult

/-- Modelled from the spec: linear short pnl `(entry - exit) * qty * mult`. -/
def calculate_short_pnl (entry exit_ qty : ℚ) (_inverse : Bool) (c_mult : ℚ) : ℚ :=
  (entry - exit_) * qty * c_mult

/-- Modelled from the spec: merge a signed quantity into a position.  A
positive delta volume-weights the price; a negative delta shrinks the size at
unchanged price, zeroing the price when the size reaches zero. -/
def calculate_new_position_size_position_price (psize pprice qty price _qstep : ℚ) :
    ℚ × ℚ :=
  if 0 < qty then
    (psize + qty, (psize * pprice + qty * price) / (psize + qty))
  else if psize + qty = 0 then (0, 0)
  else (psize + qty, pprice)

/-- Modelled from the spec: free margin
`balance - required_margin_long - required_margin_short + unrealized_pnl` with
per-side required margin `qty * price * mult / leverage` and unrealized pnl
taken at the mark price. -/
def calculate_available_margin (balance long_size long_price short_size short_price
    mark : ℚ) (inverse : Bool) (c_mult leverage : ℚ) : ℚ :=
  balance
    - long_size * long_price * c_mult / leverage
    - short_size * short_price * c_mult / leverage
    + calculate_long_pnl long_price mark long_size inverse c_mult
    + calculate_short_pnl short_price mark short_size inverse c_mult

/-- Modelled from the spec: the mark price at which the account equity
(balance plus unrealized pnl at the mark) reaches zero, given both sizes. -/
def calculate_bankruptcy_price (balance long_qty long_price short_qty short_price : ℚ)
    (_inverse : Bool) (c_mult : ℚ) : ℚ :=
  if long_qty - short_qty = 0 then 0
  else (long_qty * long_price * c_mult - short_qty * short_price * c_mult - balance)
    / ((long_qty - short_qty) * c_mult)

/-! ### Bot state and the base-bot contracts -/

/-- The `BacktestConfig` jitclass of `bots/backtest_bot.py`. -/
structure BacktestConfig where
  quantity_step : ℚ
  price_step : ℚ
  call_interval : ℚ
  leverage : ℚ
  symbol : String
  maker_fee : ℚ
  taker_fee : ℚ
  latency : ℚ
deriving DecidableEq

/-- An observation emitted through the base-bot callbacks. -/
inductive Event where
  | orderUpdate (o : Order) : Event
  | accountUpdate (balance : ℚ) (long : Position) (short : Position) : Event
deriving DecidableEq

/-- The mutable state of a `BacktestBot`: the base-bot account and books
(modelled from the spec §3/§4.3) plus the backtest fields of
`bots/backtest_bot.py` (`orders_to_execute`, `current_timestamp`, config).
`events` is the ghost log of callback emissions. -/
structure BotState where
  cfg : BacktestConfig
  balance : ℚ
  position_long : Position
  position_short : Position
  open_orders : OrderList
  orders_to_execute : OrderList
  current_timestamp : ℚ
  events : List Event
deriving DecidableEq

/-- Route a book transformation to the book named by the order's
position side. -/
def applyBook (o : Order) (f : List Order → List Order) (ob : OrderList) : OrderList :=
  if o.position_side == LONG then { ob with long := f ob.long }
  else if o.position_side == SHORT then { ob with short := f ob.short }
  else ob

/-- Modelled from the spec: the open-book effect of an order transition
(§4.3): append on `NEW`; remove by identity on `FILLED`, `CANCELED`,
`LIQUIDATION`; in-place quantity update on `PARTIALLY_FILLED`. -/
def bookTransform (o : Order) : List Order → List Order :=
  if o.action == NEW then (fun l => l ++ [o])
  else if o.action == FILLED || o.action == CANCELED || o.action == LQ then
    (fun l => l.filter (fun b => !(sameIdentity b o)))
  else if o.action == PARTIALLY_FILLED then
    (fun l => l.map (fun b => if sameIdentity b o then { b with qty := o.qty } else b))
  else id

/-- Modelled from the spec: `Bot.handle_order_update` (`bots/base_bot.py`,
§4.3): record the transition and forward it to the open-order book. -/
def handle_order_update (s : BotState) (o : Order) : BotState :=
  { s with open_orders := applyBook o (bookTransform o) s.open_orders,
           events := s.events ++ [Event.orderUpdate o] }

/-- Modelled from the spec: `Bot.handle_account_update` (`bots/base_bot.py`,
§4.3): atomically replace balance and both positions, notifying observers. -/
def handle_account_update (s : BotState) (balance : ℚ) (long short : Position) :
    BotState :=
  { s with balance := balance, position_long := long, position_short := short,
           events := s.events ++ [Event.accountUpdate balance long short] }

/-- An empty position on `side`, as constructed by the liquidation branch:
`Position(symbol, 0, 0, 0, 0, leverage, side)`. -/
def emptyPos (s : BotState) (side : ℕ) : Position :=
  ⟨s.cfg.symbol, 0, 0, 0, s.cfg.leverage, side⟩

/-! ### The per-candle exchange step (`BacktestBot.execute_exchange_logic`) -/

/-- The available margin computed by the liquidation check at the top of
`execute_exchange_logic` (line 109): balance, both position sizes and prices,
mark = `last_candle.close`, `inverse=False`, `c_mult=1`, configured leverage. -/
def liquidationMargin (s : BotState) (c : Candle) : ℚ :=
  calculate_available_margin s.balance s.position_long.size s.position_long.price
    s.position_short.size s.position_short.price c.close false 1 s.cfg.leverage

/-- The synthetic liquidation order of the liquidation branch:
`Order(symbol, 0, close, close, size, CALCULATED, SELL, current_timestamp, LQ,
side)`. -/
def liqOrder (s : BotState) (c : Candle) (side : ℕ) (size : ℚ) : Order :=
  ⟨s.cfg.symbol, 0, c.close, c.close, size, CALCULATED, SELL, s.current_timestamp,
    LQ, side⟩

/-- The liquidation branch of `execute_exchange_logic` (lines 113-124): for
each side with non-zero size, emit the synthetic order and zero the side with
balance 0. -/
def liquidate (s : BotState) (c : Candle) : BotState :=
  let s1 :=
    if s.position_long.size ≠ 0 then
      let sa := handle_order_update s (liqOrder s c LONG s.position_long.size)
      handle_account_update sa 0 (emptyPos sa LONG) sa.position_short
    else s
  if s1.position_short.size ≠ 0 then
    let sb := handle_order_update s1 (liqOrder s1 c SHORT s1.position_short.size)
    handle_account_update sb 0 sb.position_long (emptyPos sb SHORT)
  else s1

/-- The long-book execution trigger of `execute_exchange_logic` (lines
132-145): `MARKET` always; `LIMIT BUY` or `SL` iff `low < price`; `LIMIT SELL`
or `TP` iff `high > price`. -/
def longTriggered (c : Candle) (o : Order) : Bool :=
  (o.type == MARKET)
    || (((o.type == LIMIT && o.side == BUY) || o.type == SL) && decide (c.low < o.price))
    || (((o.type == LIMIT && o.side == SELL) || o.type == TP) && decide (o.price < c.high))

/-- The short-book execution trigger (lines 185-198): directions inverted,
`LIMIT BUY` or `SL` iff `high > price`; `LIMIT SELL` or `TP` iff
`low < price`. -/
def shortTriggered (c : Candle) (o : Order) : Bool :=
  (o.type == MARKET)
    || (((o.type == LIMIT && o.side == BUY) || o.type == SL) && decide (o.price < c.high))
    || (((o.type == LIMIT && o.side == SELL) || o.type == TP) && decide (c.low < o.price))

/-- The deterministic `MARKET` fill price: `round_down` of the average of
open, high, low and close, snapped to the price step (lines 135-137). -/
def marketFillPrice (s : BotState) (c : Candle) : ℚ :=
  round_down ((c.open_ + c.high + c.low + c.close) / 4) s.cfg.price_step

/-- One iteration of the long-book matching loop (lines 129-177); the
accumulator carries the evolving state and `orders_to_remove`. -/
def processLongOrder (c : Candle) (acc : BotState × List Order) (order : Order) :
    BotState × List Order :=
  let s := acc.1
  let o1 := if order.type == MARKET then { order with price := marketFillPrice s c }
            else order
  if longTriggered c order then
    let fullFill := order.qty ≤ c.volume
    let o := if fullFill then { o1 with action := FILLED }
             else { o1 with action := PARTIALLY_FILLED, qty := o1.qty - c.volume }
    let rem := if fullFill then acc.2 ++ [order] else acc.2
    let s1 := handle_order_update s o
    let p0 := s1.position_long
    let fee_paid := -(quantity_to_cost o.qty o.price false 1)
        * (if order.type == MARKET then s.cfg.taker_fee else s.cfg.maker_fee)
    let fillQty := if o.action == FILLED then o.qty else c.volume
    let pr :=
      if order.side == SELL then
        (calculate_long_pnl s1.position_long.price o.price fillQty false 1,
         calculate_new_position_size_position_price p0.qty p0.price (-fillQty) o.price
           s.cfg.quantity_step)
      else
        ((0 : ℚ),
         calculate_new_position_size_position_price p0.qty p0.price fillQty o.price
           s.cfg.quantity_step)
    let newBal := s1.balance + fee_paid + pr.1
    let p : Position :=
      { p0 with qty := pr.2.1, price := pr.2.2, leverage := s.cfg.leverage,
                position_side := LONG,
                liquidation_price := calculate_bankruptcy_price newBal pr.2.1 pr.2.2
                  s1.position_short.qty s1.position_short.price false 1 }
    (handle_account_update s1 newBal p s1.position_short, rem)
  else (s, acc.2)

/-- Long-book matching: fold the loop body over the book snapshot, then
`open_orders.delete_long(orders_to_remove)` (line 179). -/
def matchLong (s : BotState) (c : Candle) : BotState :=
  let r := s.open_orders.long.foldl (processLongOrder c) (s, [])
  { r.1 with open_orders := r.1.open_orders.delete_long r.2 }

/-- One iteration of the short-book matching loop (lines 182-231).  Note the
source's `p.position_side = LONG` at line 226 is kept as written. -/
def processShortOrder (c : Candle) (acc : BotState × List Order) (order : Order) :
    BotState × List Order :=
  let s := acc.1
  let o1 := if order.type == MARKET then { order with price := marketFillPrice s c }
            else order
  if shortTriggered c order then
    let fullFill := order.qty ≤ c.volume
    let o := if fullFill then { o1 with action := FILLED }
             else { o1 with action := PARTIALLY_FILLED, qty := o1.qty - c.volume }
    let rem := if fullFill then acc.2 ++ [order] else acc.2
    let s1 := handle_order_update s o
    let p0 := s1.position_short
    let fee_paid := -(quantity_to_cost o.qty o.price false 1)
        * (if order.type == MARKET then s.cfg.taker_fee else s.cfg.maker_fee)
    let fillQty := if o.action == FILLED then o.qty else c.volume
    let pr :=
      if order.side == SELL then
        (calculate_short_pnl s1.position_short.price o.price fillQty false 1,
         calculate_new_position_size_position_price p0.qty p0.price (-fillQty) o.price
           s.cfg.quantity_step)
      else
        ((0 : ℚ),
         calculate_new_position_size_position_price p0.qty p0.price fillQty o.price
           s.cfg.quantity_step)
    let newBal := s1.balance + fee_paid + pr.1
    let p : Position :=
      { p0 with qty := pr.2.1, price := pr.2.2, leverage := s.cfg.leverage,
                position_side := LONG,
                liquidation_price := calculate_bankruptcy_price newBal
                  s1.position_long.qty s1.position_long.price pr.2.1 pr.2.2 false 1 }
    (handle_account_update s1 newBal s1.position_long p, rem)
  else (s, acc.2)

/-- Short-book matching: fold the loop body over the book snapshot, then the
source's `open_orders.delete_long(orders_to_remove)` (line 233, as written). -/
def matchShort (s : BotState) (c : Candle) : BotState :=
  let r := s.open_orders.short.foldl (processShortOrder c) (s, [])
  { r.1 with open_orders := r.1.open_orders.delete_long r.2 }

/-- One iteration of the long pending-queue admission loop (lines 236-246). -/
def admitLongOrder (c : Candle) (acc : BotState × List Order) (order : Order) :
    BotState × List Order :=
  let s := acc.1
  if order.timestamp + s.cfg.latency ≤ s.current_timestamp then
    let s1 :=
      if order.qty * order.price < calculate_available_margin s.balance
          s.position_long.size s.position_long.price s.position_short.size
          s.position_short.price c.close false 1 s.cfg.leverage then
        handle_order_update s order
      else s
    (s1, acc.2 ++ [order])
  else (s, acc.2)

/-- Long admission: fold over the pending snapshot, then
`orders_to_execute.delete_long(orders_to_remove)` (line 248). -/
def admitLong (s : BotState) (c : Candle) : BotState :=
  let r := s.orders_to_execute.long.foldl (admitLongOrder c) (s, [])
  { r.1 with orders_to_execute := r.1.orders_to_execute.delete_long r.2 }

/-- One iteration of the short pending-queue admission loop (lines 251-261). -/
def admitShortOrder (c : Candle) (acc : BotState × List Order) (order : Order) :
    BotState × List Order :=
  let s := acc.1
  if order.timestamp + s.cfg.latency ≤ s.current_timestamp then
    let s1 :=
      if order.qty * order.price < calculate_available_margin s.balance
          s.position_long.size s.position_long.price s.position_short.size
          s.position_short.price c.close false 1 s.cfg.leverage then
        handle_order_update s order
      else s
    (s1, acc.2 ++ [order])
  else (s, acc.2)

/-- Short admission: fold over the pending snapshot, then
`orders_to_execute.delete_short(orders_to_remove)` (line 263). -/
def admitShort (s : BotState) (c : Candle) : BotState :=
  let r := s.orders_to_execute.short.foldl (admitShortOrder c) (s, [])
  { r.1 with orders_to_execute := r.1.orders_to_execute.delete_short r.2 }

/-- `BacktestBot.execute_exchange_logic`: liquidation check, long matching,
short matching, long admission, short admission; returns whether the account
can continue. -/
def execute_exchange_logic (s : BotState) (c : Candle) : BotState × Bool :=
  if liquidationMargin s c ≤ 0 then (liquidate s c, false)
  else (admitShort (admitLong (matchShort (matchLong s c) c) c) c, true)

/-! ### Order intake (`create_orders` / `cancel_orders`) -/

/-- The partition step of the intake loops: route a stamped order by its
position side, dropping any other value. -/
def partitionStep (acc : List Order × List Order) (order : Order) :
    List Order × List Order :=
  if order.position_side == LONG then (acc.1 ++ [order], acc.2)
  else if order.position_side == SHORT then (acc.1, acc.2 ++ [order])
  else acc

/-- The stamping every intake order receives: symbol, current timestamp and
the given action. -/
def stampOrder (s : BotState) (a : ℕ) (o : Order) : Order :=
  { o with symbol := s.cfg.symbol, timestamp := s.current_timestamp, action := a }

/-- `BacktestBot.create_orders` (lines 296-314): stamp with `action = NEW`,
partition by position side, append both batches to the pending queue. -/
def create_orders (s : BotState) (orders_to_create : List Order) : BotState :=
  let pair := (orders_to_create.map (stampOrder s NEW)).foldl partitionStep ([], [])
  { s with orders_to_execute :=
      (s.orders_to_execute.add_long pair.1).add_short pair.2 }

/-- `BacktestBot.cancel_orders` (lines 316-334): stamp with
`action = CANCELED`, partition by position side, append both batches to the
pending queue. -/
def cancel_orders (s : BotState) (orders_to_cancel : List Order) : BotState :=
  let pair := (orders_to_cancel.map (stampOrder s CANCELED)).foldl partitionStep ([], [])
  { s with orders_to_execute :=
      (s.orders_to_execute.add_long pair.1).add_short pair.2 }

/-! ### The driver loop (`BacktestBot.start_websocket`) -/

/-- A ghost observation of the driver loop: a strategy invocation with the
candle window passed to it, or the halt caused by a step returning false. -/
inductive WSEv where
  | decideEv (ts : ℚ) (window : List Candle) : WSEv
  | haltEv (ts : ℚ) : WSEv
deriving DecidableEq

/-- `BacktestBot.start_websocket` (lines 275-294), with the injected strategy
decision `dec` as a parameter: per row set `current_timestamp`, run
`execute_exchange_logic`, return on halt, buffer the candle, and on
`current_timestamp - last_update ≥ call_interval * 1000` invoke the strategy
on the buffer and reset it.  The result is the ghost trace of invocations. -/
def start_websocket (dec : BotState → List Candle → BotState) :
    BotState → List Candle → ℚ → List (ℚ × Candle) → List WSEv
  | _, _, _, [] => []
  | s, buf, lu, (ts, c) :: rest =>
    let s0 := { s with current_timestamp := ts }
    let r := execute_exchange_logic s0 c
    if r.2 = false then [WSEv.haltEv ts]
    else
      let buf1 := buf ++ [c]
      if s.cfg.call_interval * 1000 ≤ ts - lu then
        WSEv.decideEv ts buf1 :: start_websocket dec (dec r.1 buf1) [] ts rest
      else
        start_websocket dec r.1 buf1 lu rest

/-- The strategy invocations of a driver trace. -/
def decEvents (tr : List WSEv) : List (ℚ × List Candle) :=
  tr.filterMap (fun e => match e with
    | WSEv.decideEv ts w => some (ts, w)
    | WSEv.haltEv _ => none)

/-! ### Observation helpers used by the claim statements -/

/-- The identity key of an order (§4.2): client id and position side. -/
def idKey (o : Order) : ℕ × ℕ := (o.order_id, o.position_side)

/-- The order-update emissions of an event log. -/
def orderEvents (l : List Event) : List Order :=
  l.filterMap (fun e => match e with
    | Event.orderUpdate o => some o
    | Event.accountUpdate _ _ _ => none)

/-- A pending order whose latency has expired at the current timestamp
(line 237 / line 252). -/
def dueB (s : BotState) (o : Order) : Bool :=
  decide (o.timestamp + s.cfg.latency ≤ s.current_timestamp)

/-- The admission margin check (lines 238-244): the order's notional is
strictly below the available margin at the candle close. -/
def marginB (s : BotState) (c : Candle) (o : Order) : Bool :=
  decide (o.qty * o.price < liquidationMargin s c)

/-- The cadence property of a decide trace: each strategy invocation is at
least `interval * 1000` after the previous one (or after the initial
`last_update`). -/
def Gaps (iv : ℚ) : ℚ → List (ℚ × List Candle) → Prop
  | _, [] => True
  | lu, (t, _) :: es => iv * 1000 ≤ t - lu ∧ Gaps iv t es

/-- The window property of a decide trace: the first invocation receives the
initial buffer followed by every candle of the rows up to and including its
own row, and each later invocation restarts from an empty buffer. -/
def Covers : List Candle → List (ℚ × Candle) → List (ℚ × List Candle) → Prop
  | _, _, [] => True
  | buf, rows, (t, w) :: es =>
      ∃ pre c rest, rows = pre ++ (t, c) :: rest ∧
        w = buf ++ pre.map Prod.snd ++ [c] ∧ Covers [] rest es

/-- Nothing follows a halt in a driver trace. -/
def HaltLast : List WSEv → Prop
  | [] => True
  | WSEv.haltEv _ :: es => es = []
  | WSEv.decideEv _ _ :: es => HaltLast es

/-! ### Concrete scenario states used by witnesses and counterexamples -/

/-- A simple configuration: unit steps, leverage 1, zero fees, zero latency. -/
def cfgA : BacktestConfig := ⟨1, 1, 1, 1, "S", 0, 0, 0⟩

/-- An empty position on the given side for the sample symbol. -/
def posA (side : ℕ) : Position := ⟨"S", 0, 0, 0, 1, side⟩

/-- A base state: empty books and queues, flat positions. -/
def stBase : BotState :=
  ⟨cfgA, 10000, posA LONG, posA SHORT, emptyOrderList, emptyOrderList, 0, []⟩

/-- The open `LIMIT BUY LONG qty=10 @ 100` order of the partial-fill
scenario. -/
def oPartial : Order := ⟨"S", 1, 100, 100, 10, LIMIT, BUY, 0, NEW, LONG⟩

/-- Partial-fill scenario state: no position, one open long limit order. -/
def sPartial : BotState := { stBase with open_orders := ⟨[oPartial], []⟩ }

/-- Partial-fill scenario candle: `low=99, high=101, volume=3`. -/
def cPartial : Candle := ⟨100, 101, 99, 100, 3⟩

/-- A `LIMIT BUY SHORT` order used to exercise a short-book fill. -/
def oShortFill : Order := ⟨"S", 2, 100, 100, 1, LIMIT, BUY, 0, NEW, SHORT⟩

/-- Short-book fill scenario state. -/
def sShortFill : BotState :=
  { stBase with balance := 1000, open_orders := ⟨[], [oShortFill]⟩ }

/-- Short-book fill scenario candle: `high=101 > 100`, ample volume. -/
def cShortFill : Candle := ⟨100, 101, 99, 100, 5⟩

/-- Liquidation scenario state: `long.qty=10 @ 100`, leverage 10,
balance 10. -/
def sLiq : BotState :=
  { stBase with
      cfg := { cfgA with leverage := 10 }
      balance := 10
      position_long := ⟨"S", 10, 100, 0, 10, LONG⟩ }

/-- Liquidation scenario candle: `close=80`. -/
def cLiq : Candle := ⟨80, 80, 80, 80, 0⟩

/-- The open order targeted by the cancel scenario. -/
def oCancelTarget : Order := ⟨"S", 3, 100, 100, 1, LIMIT, BUY, 0, NEW, LONG⟩

/-- The pending cancellation of `oCancelTarget`. -/
def oCancel : Order := ⟨"S", 3, 100, 100, 1, LIMIT, BUY, 0, CANCELED, LONG⟩

/-- Cancel scenario state: balance 50, so the cancel's notional `100` fails
the `< available margin` admission check. -/
def sCancel : BotState :=
  { stBase with
      balance := 50
      open_orders := ⟨[oCancelTarget], []⟩
      orders_to_execute := ⟨[oCancel], []⟩ }

/-- Cancel scenario candle: prices far above the limit, so the open order
does not trigger; the pending cancel is due. -/
def cCancel : Candle := ⟨155, 160, 150, 155, 1⟩

/-- An open `MARKET BUY LONG` order. -/
def oMarket : Order := ⟨"S", 4, 0, 0, 1, MARKET, BUY, 0, NEW, LONG⟩

/-- Market-pricing scenario state. -/
def sMarket : BotState :=
  { stBase with balance := 100000, open_orders := ⟨[oMarket], []⟩ }

/-- Market-pricing scenario candle: `open=100, high=120, low=90,
close=110`. -/
def cMarket : Candle := ⟨100, 120, 90, 110, 5⟩

/-- An intake order with a position side that is neither `LONG` nor
`SHORT`. -/
def oBadSide : Order := ⟨"X", 9, 10, 10, 1, LIMIT, BUY, 0, NEW, 0⟩

/-- A pending `LIMIT BUY LONG` order used by the admission witness. -/
def oAdmit : Order := ⟨"S", 5, 100, 100, 1, LIMIT, BUY, 0, NEW, LONG⟩

/-- Admission witness state: ample balance, one due pending long order. -/
def sAdmit : BotState :=
  { stBase with orders_to_execute := ⟨[oAdmit], []⟩ }

/-! ## Basic frame lemmas for the callback contracts -/

@[simp]
theorem handle_order_update_balance (s : BotState) (o : Order) :
    (handle_order_update s o).balance = s.balance := rfl

@[simp]
theorem handle_order_update_position_long (s : BotState) (o : Order) :
    (handle_order_update s o).position_long = s.position_long := rfl

@[simp]
theorem handle_order_update_position_short (s : BotState) (o : Order) :
    (handle_order_update s o).position_short = s.position_short := rfl

@[simp]
theorem handle_order_update_cfg (s : BotState) (o : Order) :
    (handle_order_update s o).cfg = s.cfg := rfl

@[simp]
theorem handle_order_update_current_timestamp (s : BotState) (o : Order) :
    (handle_order_update s o).current_timestamp = s.current_timestamp := rfl

@[simp]
theorem handle_order_update_orders_to_execute (s : BotState) (o : Order) :
    (handle_order_update s o).orders_to_execute = s.orders_to_execute := rfl

@[simp]
theorem handle_order_update_events (s : BotState) (o : Order) :
    (handle_order_update s o).events = s.events ++ [Event.orderUpdate o] := rfl

@[simp]
theorem handle_account_update_cfg (s : BotState) (b : ℚ) (l sh : Position) :
    (handle_account_update s b l sh).cfg = s.cfg := rfl

@[simp]
theorem handle_account_update_current_timestamp (s : BotState) (b : ℚ) (l sh : Position) :
    (handle_account_update s b l sh).current_timestamp = s.current_timestamp := rfl

@[simp]
theorem handle_account_update_open_orders (s : BotState) (b : ℚ) (l sh : Position) :
    (handle_account_update s b l sh).open_orders = s.open_orders := rfl

@[simp]
theorem handle_account_update_orders_to_execute (s : BotState) (b : ℚ) (l sh : Position) :
    (handle_account_update s b l sh).orders_to_execute = s.orders_to_execute := rfl

@[simp]
theorem handle_account_update_balance (s : BotState) (b : ℚ) (l sh : Position) :
    (handle_account_update s b l sh).balance = b := rfl

@[simp]
theorem handle_account_update_position_long (s : BotState) (b : ℚ) (l sh : Position) :
    (handle_account_update s b l sh).position_long = l := rfl

@[simp]
theorem handle_account_update_position_short (s : BotState) (b : ℚ) (l sh : Position) :
    (handle_account_update s b l sh).position_short = sh := rfl

@[simp]
theorem handle_account_update_events (s : BotState) (b : ℚ) (l sh : Position) :
    (handle_account_update s b l sh).events = s.events ++ [Event.accountUpdate b l sh] :=
  rfl

@[simp]
theorem emptyPos_handle_order_update (s : BotState) (o : Order) (side : ℕ) :
    emptyPos (handle_order_update s o) side = emptyPos s side := rfl

@[simp]
theorem liqOrder_handle_order_update (s : BotState) (o : Order) (c : Candle)
    (side : ℕ) (q : ℚ) :
    liqOrder (handle_order_update s o) c side q = liqOrder s c side q := rfl

@[simp]
theorem liqOrder_handle_account_update (s : BotState) (b : ℚ) (l sh : Position)
    (c : Candle) (side : ℕ) (q : ℚ) :
    liqOrder (handle_account_update s b l sh) c side q = liqOrder s c side q := rfl

@[simp]
theorem emptyPos_handle_account_update (s : BotState) (b : ℚ) (l sh : Position)
    (side : ℕ) :
    emptyPos (handle_account_update s b l sh) side = emptyPos s side := rfl

/-! ## C1: liquidation halts the step and resets the account -/

/-- C1.  If the available margin at the candle close is `≤ 0` at the start of
the step, then for each side with non-zero position size the step emits a
synthetic `CALCULATED/LIQUIDATION/SELL` order at the close for the side's
size, calls `handle_account_update` with balance 0 and that side's position
emptied, and the step returns `false`. -/
theorem liquidation_halts_and_resets (s : BotState) (c : Candle)
    (h : liquidationMargin s c ≤ 0) :
    (execute_exchange_logic s c).2 = false ∧
    (execute_exchange_logic s c).1.events = s.events
      ++ (if s.position_long.size ≠ 0 then
            [Event.orderUpdate (liqOrder s c LONG s.position_long.size),
             Event.accountUpdate 0 (emptyPos s LONG) s.position_short]
          else [])
      ++ (if s.position_short.size ≠ 0 then
            [Event.orderUpdate (liqOrder s c SHORT s.position_short.size),
             Event.accountUpdate 0
               (if s.position_long.size ≠ 0 then emptyPos s LONG else s.position_long)
               (emptyPos s SHORT)]
          else []) ∧
    (s.position_long.size ≠ 0 →
      (execute_exchange_logic s c).1.position_long = emptyPos s LONG ∧
      (execute_exchange_logic s c).1.balance = 0) ∧
    (s.position_short.size ≠ 0 →
      (execute_exchange_logic s c).1.position_short = emptyPos s SHORT ∧
      (execute_exchange_logic s c).1.balance = 0) := by
  have hx : execute_exchange_logic s c = (liquidate s c, false) := by
    simp [execute_exchange_logic, h]
  rw [hx]
  unfold liquidate
  simp only [Position.size]
  by_cases hl : s.position_long.qty = 0 <;> by_cases hs : s.position_short.qty = 0 <;>
    simp [hl, hs, List.append_assoc]

unseal Rat.sub Rat.add Rat.mul Rat.inv Rat.ofScientific in
/-- Witness for C1: the liquidation scenario (`long.qty=10 @ 100`,
leverage 10, balance 10, close 80) satisfies the margin hypothesis and the
step halts. -/
theorem liquidation_halts_and_resets_witness :
    liquidationMargin sLiq cLiq ≤ 0 ∧
    (execute_exchange_logic sLiq cLiq).2 = false := by
  refine ⟨by decide, ?_⟩
  exact (liquidation_halts_and_resets sLiq cLiq (by decide)).1

/-! ## C3: partial fill emits the remaining, not the filled, quantity -/

unseal Rat.sub Rat.add Rat.mul Rat.inv Rat.ofScientific in
/-- C3 counterexample.  In the partial-fill scenario (open
`LIMIT BUY LONG qty=10 @ 100`, candle `low=99, high=101, volume=3`) the step
emits exactly one order update and it carries `qty = 7` — the residual
quantity — so no emission with `qty = 3` (the filled amount, as the claim
states) exists. -/
theorem partial_fill_qty_counterexample :
    orderEvents (execute_exchange_logic sPartial cPartial).1.events
        = [⟨"S", 1, 100, 100, 7, LIMIT, BUY, 0, PARTIALLY_FILLED, LONG⟩] ∧
    ¬ ∃ o ∈ orderEvents (execute_exchange_logic sPartial cPartial).1.events,
        o.action = PARTIALLY_FILLED ∧ o.qty = 3 := by
  exact ⟨by decide, by decide⟩

unseal Rat.sub Rat.add Rat.mul Rat.inv Rat.ofScientific in
/-- C3 amended.  Same scenario: exactly one order-update emission, with
`action = PARTIALLY_FILLED` and `qty = 7` (the original 10 reduced by the
filled amount 3); the open order stays in the book with `qty = 7`; the long
position becomes `qty = 3` at price 100. -/
theorem partial_fill_emission_amended :
    orderEvents (execute_exchange_logic sPartial cPartial).1.events
        = [⟨"S", 1, 100, 100, 7, LIMIT, BUY, 0, PARTIALLY_FILLED, LONG⟩] ∧
    (execute_exchange_logic sPartial cPartial).1.open_orders.long
        = [⟨"S", 1, 100, 100, 7, LIMIT, BUY, 0, NEW, LONG⟩] ∧
    (execute_exchange_logic sPartial cPartial).1.position_long.qty = 3 ∧
    (execute_exchange_logic sPartial cPartial).1.position_long.price = 100 := by
  refine ⟨by decide, by decide, by decide, by decide⟩

/-! ## C5: the short-book fill stores `LONG` in the short slot -/

unseal Rat.sub Rat.add Rat.mul Rat.inv Rat.ofScientific in
/-- C5 failing input.  A short-book fill (`LIMIT BUY SHORT qty=1 @ 100`,
candle high 101, ample volume) leaves the account's short slot with
`position_side = LONG`: the source's line 226 assigns `LONG` after updating a
short position, so the claimed `SHORT` invariant fails. -/
theorem short_fill_sets_long_position_side :
    (execute_exchange_logic sShortFill cShortFill).1.position_short.position_side
        = LONG ∧
    LONG ≠ SHORT := by
  exact ⟨by decide, by decide⟩

/-! ## C7: a due cancel is dropped by the margin check -/

unseal Rat.sub Rat.add Rat.mul Rat.inv Rat.ofScientific in
/-- C7 failing input.  A pending `CANCELED` order whose latency has expired
(notional 100, available margin 50) is silently dropped by the admission
margin check: no `handle_order_update` is emitted, the matching open order
stays in the book, and the pending queue is emptied — contradicting the claim
that cancellations are never dropped for insufficient margin. -/
theorem canceled_pending_margin_drop :
    dueB sCancel oCancel = true ∧
    marginB sCancel cCancel oCancel = false ∧
    (execute_exchange_logic sCancel cCancel).1.open_orders.long = [oCancelTarget] ∧
    (execute_exchange_logic sCancel cCancel).1.events = [] ∧
    (execute_exchange_logic sCancel cCancel).1.orders_to_execute.long = [] := by
  refine ⟨by decide, by decide, by decide, by decide, by decide⟩

/-! ## C8: market orders fill at the rounded candle mean -/

/-- The first event emitted when matching a triggered long-book order is the
order-update copy; when the order is a `MARKET` order its price is the
rounded candle mean. -/
theorem processLongOrder_market_event (c : Candle) (s : BotState) (r : List Order)
    (o : Order) (h : longTriggered c o = true) (hm : o.type = MARKET) :
    ∃ o' rest,
      (processLongOrder c (s, r) o).1.events
          = s.events ++ Event.orderUpdate o' :: rest ∧
      o'.price = marketFillPrice s c ∧ o'.order_id = o.order_id := by
  unfold processLongOrder
  by_cases hf : o.qty ≤ c.volume <;>
    simp [h, hf, hm, MARKET]

/-- Short-book analogue of `processLongOrder_market_event`. -/
theorem processShortOrder_market_event (c : Candle) (s : BotState) (r : List Order)
    (o : Order) (h : shortTriggered c o = true) (hm : o.type = MARKET) :
    ∃ o' rest,
      (processShortOrder c (s, r) o).1.events
          = s.events ++ Event.orderUpdate o' :: rest ∧
      o'.price = marketFillPrice s c ∧ o'.order_id = o.order_id := by
  unfold processShortOrder
  by_cases hf : o.qty ≤ c.volume <;>
    simp [h, hf, hm, MARKET]

/-- C8.  An open `MARKET` order on either book always matches, and the fill
copy it emits carries `price = round_down(mean(open, high, low, close),
price_step)`; concretely, on the candle `open=100, high=120, low=90,
close=110` with `price_step = 1` the fill price is 105. -/
theorem market_fill_pricing :
    (∀ s c (o : Order), s.open_orders.long = [o] → o.type = MARKET →
      ∃ o' rest, (matchLong s c).events = s.events ++ Event.orderUpdate o' :: rest ∧
        o'.price = marketFillPrice s c ∧ o'.order_id = o.order_id) ∧
    (∀ s c (o : Order), s.open_orders.short = [o] → o.type = MARKET →
      ∃ o' rest, (matchShort s c).events = s.events ++ Event.orderUpdate o' :: rest ∧
        o'.price = marketFillPrice s c ∧ o'.order_id = o.order_id) ∧
    marketFillPrice sMarket cMarket = 105 ∧
    round_down ((100 + 120 + 90 + 110) / 4) 1 = 105 := by
  refine ⟨?_, ?_, ?_, ?_⟩
  · intro s c o hb hm
    have htrig : longTriggered c o = true := by simp [longTriggered, hm]
    obtain ⟨o', rest, he, hp, hid⟩ := processLongOrder_market_event c s [] o htrig hm
    refine ⟨o', rest, ?_, hp, hid⟩
    unfold matchLong
    rw [hb]
    simpa using he
  · intro s c o hb hm
    have htrig : shortTriggered c o = true := by simp [shortTriggered, hm]
    obtain ⟨o', rest, he, hp, hid⟩ := processShortOrder_market_event c s [] o htrig hm
    refine ⟨o', rest, ?_, hp, hid⟩
    unfold matchShort
    rw [hb]
    simpa using he
  · show marketFillPrice sMarket cMarket = 105
    unfold marketFillPrice round_down
    norm_num [sMarket, cMarket, stBase, cfgA]
  · unfold round_down
    norm_num

/-- Witness for C8: the market scenario discharges the hypotheses and the
emitted copy's price is the rounded mean. -/
theorem market_fill_pricing_witness :
    ∃ o' rest,
      (matchLong sMarket cMarket).events
          = sMarket.events ++ Event.orderUpdate o' :: rest ∧
      o'.price = marketFillPrice sMarket cMarket ∧ o'.order_id = oMarket.order_id :=
  market_fill_pricing.1 sMarket cMarket oMarket rfl rfl

/-! ## C2: execution triggers and the frame of non-executing orders -/

theorem sameIdentity_iff (a b : Order) :
    sameIdentity a b = true ↔ idKey a = idKey b := by
  simp [sameIdentity, idKey, Prod.ext_iff]

/-- An order stays in the long book under any single book transition keyed to
a different identity. -/
theorem mem_applyBook_long (k : Order) (ob : OrderList) (o : Order)
    (ho : o ∈ ob.long) (hk : sameIdentity o k = false) :
    o ∈ (applyBook k (bookTransform k) ob).long := by
  unfold applyBook bookTransform
  split_ifs <;> simp_all [List.mem_filter]
  · exact ⟨o, ho, by simp [hk]⟩

/-- An order stays in the short book under any single book transition keyed to
a different identity. -/
theorem mem_applyBook_short (k : Order) (ob : OrderList) (o : Order)
    (ho : o ∈ ob.short) (hk : sameIdentity o k = false) :
    o ∈ (applyBook k (bookTransform k) ob).short := by
  unfold applyBook bookTransform
  split_ifs <;> simp_all [List.mem_filter]
  · exact ⟨o, ho, by simp [hk]⟩

/-- Survival of an untriggered order through one long-book matching
iteration, together with preservation of the removal-list invariant. -/
theorem processLongOrder_frame (c : Candle) (acc : BotState × List Order) (b o : Order)
    (hnt : longTriggered c o = false)
    (ho : o ∈ acc.1.open_orders.long)
    (hb : idKey b ≠ idKey o ∨ b = o)
    (hr : ∀ r ∈ acc.2, idKey r ≠ idKey o) :
    o ∈ (processLongOrder c acc b).1.open_orders.long ∧
    (∀ r ∈ (processLongOrder c acc b).2, idKey r ≠ idKey o) := by
  rcases hb with hb | rfl
  · unfold processLongOrder
    by_cases ht : longTriggered c b
    · have hk : ∀ k : Order, idKey k = idKey b → sameIdentity o k = false := by
        intro k hkk
        rcases h : sameIdentity o k with _ | _
        · rfl
        · exact absurd ((sameIdentity_iff o k).mp h ▸ hkk) (fun hh => hb hh.symm)
      by_cases hf : b.qty ≤ c.volume
      · simp only [ht, hf, ite_true, if_true]
        constructor
        · apply mem_applyBook_long _ _ _ ho
          apply hk
          by_cases hm : b.type == MARKET <;> simp [hm, idKey]
        · intro r hrr
          rcases List.mem_append.mp hrr with hrr | hrr
          · exact hr r hrr
          · rcases List.mem_singleton.mp hrr with rfl
            exact fun hh => hb hh
      · simp only [ht, hf, ite_true, ite_false, if_true, if_false]
        constructor
        · apply mem_applyBook_long _ _ _ ho
          apply hk
          by_cases hm : b.type == MARKET <;> simp [hm, idKey]
        · exact hr
    · simp only [ht, Bool.false_eq_true, ite_false, if_false]
      exact ⟨ho, hr⟩
  · unfold processLongOrder
    simp only [hnt, Bool.false_eq_true, ite_false, if_false]
    exact ⟨ho, hr⟩

/-- Survival of an untriggered order through one short-book matching
iteration. -/
theorem processShortOrder_frame (c : Candle) (acc : BotState × List Order) (b o : Order)
    (hnt : shortTriggered c o = false)
    (ho : o ∈ acc.1.open_orders.short)
    (hb : idKey b ≠ idKey o ∨ b = o) :
    o ∈ (processShortOrder c acc b).1.open_orders.short := by
  rcases hb with hb | rfl
  · unfold processShortOrder
    by_cases ht : shortTriggered c b
    · have hk : ∀ k : Order, idKey k = idKey b → sameIdentity o k = false := by
        intro k hkk
        rcases h : sameIdentity o k with _ | _
        · rfl
        · exact absurd ((sameIdentity_iff o k).mp h ▸ hkk) (fun hh => hb hh.symm)
      by_cases hf : b.qty ≤ c.volume <;>
        [simp only [ht, hf, ite_true, if_true];
         simp only [ht, hf, ite_true, ite_false, if_true, if_false]] <;>
        (apply mem_applyBook_short _ _ _ ho
         apply hk
         by_cases hm : b.type == MARKET <;> simp [hm, idKey])
    · simp only [ht, Bool.false_eq_true, ite_false, if_false]
      exact ho
  · unfold processShortOrder
    simp only [hnt, Bool.false_eq_true, ite_false, if_false]
    exact ho

/-- Survival of an untriggered order through the whole long-book matching
fold. -/
theorem foldl_processLongOrder_frame (c : Candle) (o : Order)
    (hnt : longTriggered c o = false) :
    ∀ (l : List Order) (acc : BotState × List Order),
      (∀ b ∈ l, idKey b ≠ idKey o ∨ b = o) →
      o ∈ acc.1.open_orders.long →
      (∀ r ∈ acc.2, idKey r ≠ idKey o) →
      o ∈ ((l.foldl (processLongOrder c) acc).1).open_orders.long ∧
      (∀ r ∈ (l.foldl (processLongOrder c) acc).2, idKey r ≠ idKey o)
  | [], acc, _, ho, hr => ⟨ho, hr⟩
  | b :: l, acc, hl, ho, hr => by
    have step := processLongOrder_frame c acc b o hnt ho (hl b (by simp)) hr
    have tail := foldl_processLongOrder_frame c o hnt l (processLongOrder c acc b)
      (fun x hx => hl x (by simp [hx])) step.1 step.2
    simpa using tail

/-- Survival of an untriggered order through the whole short-book matching
fold. -/
theorem foldl_processShortOrder_frame (c : Candle) (o : Order)
    (hnt : shortTriggered c o = false) :
    ∀ (l : List Order) (acc : BotState × List Order),
      (∀ b ∈ l, idKey b ≠ idKey o ∨ b = o) →
      o ∈ acc.1.open_orders.short →
      o ∈ ((l.foldl (processShortOrder c) acc).1).open_orders.short
  | [], acc, _, ho => ho
  | b :: l, acc, hl, ho => by
    have step := processShortOrder_frame c acc b o hnt ho (hl b (by simp))
    have tail := foldl_processShortOrder_frame c o hnt l (processShortOrder c acc b)
      (fun x hx => hl x (by simp [hx])) step
    simpa using tail

/-- A book with no duplicate identities lets any of its members be the unique
bearer of its identity. -/
theorem nodup_idKey_cases (L : List Order) (hid : (L.map idKey).Nodup)
    (o : Order) (ho : o ∈ L) :
    ∀ b ∈ L, idKey b ≠ idKey o ∨ b = o := by
  intro b hbL
  by_cases h : idKey b = idKey o
  · exact Or.inr (List.inj_on_of_nodup_map hid hbL ho h)
  · exact Or.inl h

/-- A non-executing long-book order survives long-book matching unchanged. -/
theorem matchLong_frame (s : BotState) (c : Candle) (o : Order)
    (hid : (s.open_orders.long.map idKey).Nodup)
    (ho : o ∈ s.open_orders.long) (hnt : longTriggered c o = false) :
    o ∈ (matchLong s c).open_orders.long := by
  unfold matchLong
  obtain ⟨h1, h2⟩ := foldl_processLongOrder_frame c o hnt s.open_orders.long (s, [])
    (nodup_idKey_cases s.open_orders.long hid o ho) ho (by simp)
  simp only [OrderList.delete_long]
  refine List.mem_filter.mpr ⟨h1, ?_⟩
  simp only [Bool.not_eq_eq_eq_not, Bool.not_true, List.any_eq_false]
  intro r hr
  rcases hq : sameIdentity o r with _ | _
  · exact Bool.false_ne_true
  · exact absurd ((sameIdentity_iff o r).mp hq).symm (h2 r hr)

/-- A non-executing short-book order survives short-book matching unchanged
(the trailing `delete_long` call of the source does not touch the short
book). -/
theorem matchShort_frame (s : BotState) (c : Candle) (o : Order)
    (hid : (s.open_orders.short.map idKey).Nodup)
    (ho : o ∈ s.open_orders.short) (hnt : shortTriggered c o = false) :
    o ∈ (matchShort s c).open_orders.short := by
  unfold matchShort
  exact foldl_processShortOrder_frame c o hnt s.open_orders.short (s, [])
    (nodup_idKey_cases s.open_orders.short hid o ho) ho

/-- C2.  Execution triggers per book: `MARKET` always executes on both books;
on the long book `LIMIT BUY` or `SL` executes iff `c.low < price` and
`LIMIT SELL` or `TP` iff `c.high > price`; on the short book the directions
are inverted; and (for books without duplicate identities) any non-executing
order is left unchanged in its book. -/
theorem execution_triggers :
    (∀ (c : Candle) (o : Order), o.type = MARKET →
        longTriggered c o = true ∧ shortTriggered c o = true) ∧
    (∀ (c : Candle) (o : Order), (o.type = LIMIT ∧ o.side = BUY) ∨ o.type = SL →
        (longTriggered c o = true ↔ c.low < o.price)) ∧
    (∀ (c : Candle) (o : Order), (o.type = LIMIT ∧ o.side = SELL) ∨ o.type = TP →
        (longTriggered c o = true ↔ o.price < c.high)) ∧
    (∀ (c : Candle) (o : Order), (o.type = LIMIT ∧ o.side = BUY) ∨ o.type = SL →
        (shortTriggered c o = true ↔ o.price < c.high)) ∧
    (∀ (c : Candle) (o : Order), (o.type = LIMIT ∧ o.side = SELL) ∨ o.type = TP →
        (shortTriggered c o = true ↔ c.low < o.price)) ∧
    (∀ (s : BotState) (c : Candle) (o : Order),
        (s.open_orders.long.map idKey).Nodup → o ∈ s.open_orders.long →
        longTriggered c o = false → o ∈ (matchLong s c).open_orders.long) ∧
    (∀ (s : BotState) (c : Candle) (o : Order),
        (s.open_orders.short.map idKey).Nodup → o ∈ s.open_orders.short →
        shortTriggered c o = false → o ∈ (matchShort s c).open_orders.short) := by
  refine ⟨?_, ?_, ?_, ?_, ?_, ?_, ?_⟩
  · intro c o h
    constructor <;> simp [longTriggered, shortTriggered, h]
  · intro c o h
    rcases h with ⟨h1, h2⟩ | h1
    · simp [longTriggered, h1, h2, MARKET, LIMIT, TP, SL, BUY, SELL]
    · simp [longTriggered, h1, MARKET, LIMIT, TP, SL, BUY, SELL]
  · intro c o h
    rcases h with ⟨h1, h2⟩ | h1
    · simp [longTriggered, h1, h2, MARKET, LIMIT, TP, SL, BUY, SELL]
    · simp [longTriggered, h1, MARKET, LIMIT, TP, SL, BUY, SELL]
  · intro c o h
    rcases h with ⟨h1, h2⟩ | h1
    · simp [shortTriggered, h1, h2, MARKET, LIMIT, TP, SL, BUY, SELL]
    · simp [shortTriggered, h1, MARKET, LIMIT, TP, SL, BUY, SELL]
  · intro c o h
    rcases h with ⟨h1, h2⟩ | h1
    · simp [shortTriggered, h1, h2, MARKET, LIMIT, TP, SL, BUY, SELL]
    · simp [shortTriggered, h1, MARKET, LIMIT, TP, SL, BUY, SELL]
  · exact fun s c o hid ho hnt => matchLong_frame s c o hid ho hnt
  · exact fun s c o hid ho hnt => matchShort_frame s c o hid ho hnt

unseal Rat.sub Rat.add Rat.mul Rat.inv Rat.ofScientific in
/-- Witness for C2: concrete instances discharging each hypothesis — a
market order triggers, the partial-fill scenario's limit buy triggers on its
candle, and the cancel scenario's untriggered limit buy stays in the book. -/
theorem execution_triggers_witness :
    (longTriggered cMarket oMarket = true ∧ shortTriggered cMarket oMarket = true) ∧
    (longTriggered cPartial oPartial = true ↔ cPartial.low < oPartial.price) ∧
    oCancelTarget ∈ (matchLong sCancel cCancel).open_orders.long := by
  refine ⟨execution_triggers.1 cMarket oMarket rfl, ?_, ?_⟩
  · exact execution_triggers.2.1 cPartial oPartial (Or.inl ⟨rfl, rfl⟩)
  · exact execution_triggers.2.2.2.2.2.1 sCancel cCancel oCancelTarget
      (by decide) (by decide) (by decide)

/-! ## C4: pending-order admission -/

@[simp]
theorem dueB_handle_order_update (s : BotState) (k o : Order) :
    dueB (handle_order_update s k) o = dueB s o := rfl

@[simp]
theorem marginB_handle_order_update (s : BotState) (k : Order) (c : Candle) (o : Order) :
    marginB (handle_order_update s k) c o = marginB s c o := rfl

/-- The admission fold: emits exactly the due orders that pass the margin
check, collects exactly the due orders for removal, and leaves the pending
queues, balance and positions untouched. -/
theorem foldl_admitLongOrder (c : Candle) :
    ∀ (l : List Order) (t : BotState) (r : List Order),
      ((l.foldl (admitLongOrder c) (t, r)).1.events
          = t.events
            ++ (l.filter (fun o => dueB t o && marginB t c o)).map Event.orderUpdate) ∧
      ((l.foldl (admitLongOrder c) (t, r)).2 = r ++ l.filter (fun o => dueB t o)) ∧
      ((l.foldl (admitLongOrder c) (t, r)).1.orders_to_execute = t.orders_to_execute)
  | [], t, r => by simp
  | o :: l, t, r => by
    have hstep : admitLongOrder c (t, r) o
        = (if dueB t o && marginB t c o then handle_order_update t o else t,
           if dueB t o then r ++ [o] else r) := by
      unfold admitLongOrder
      by_cases hd : o.timestamp + t.cfg.latency ≤ t.current_timestamp <;>
        by_cases hm : o.qty * o.price < liquidationMargin t c <;>
          simp [hd, hm, dueB, marginB, liquidationMargin]
    by_cases hd : dueB t o = true <;> by_cases hm : marginB t c o = true
    · have ih := foldl_admitLongOrder c l (handle_order_update t o) (r ++ [o])
      simp [hstep, hd, hm, ih.1, ih.2.1, ih.2.2, List.filter_cons]
    · have ih := foldl_admitLongOrder c l t (r ++ [o])
      simp [hstep, hd, hm, ih.1, ih.2.1, ih.2.2, List.filter_cons]
    · have ih := foldl_admitLongOrder c l t r
      simp [hstep, hd, hm, ih.1, ih.2.1, ih.2.2, List.filter_cons]
    · have ih := foldl_admitLongOrder c l t r
      simp [hstep, hd, hm, ih.1, ih.2.1, ih.2.2, List.filter_cons]

/-- Short-queue analogue of `foldl_admitLongOrder`. -/
theorem foldl_admitShortOrder (c : Candle) :
    ∀ (l : List Order) (t : BotState) (r : List Order),
      ((l.foldl (admitShortOrder c) (t, r)).1.events
          = t.events
            ++ (l.filter (fun o => dueB t o && marginB t c o)).map Event.orderUpdate) ∧
      ((l.foldl (admitShortOrder c) (t, r)).2 = r ++ l.filter (fun o => dueB t o)) ∧
      ((l.foldl (admitShortOrder c) (t, r)).1.orders_to_execute = t.orders_to_execute)
  | [], t, r => by simp
  | o :: l, t, r => by
    have hstep : admitShortOrder c (t, r) o
        = (if dueB t o && marginB t c o then handle_order_update t o else t,
           if dueB t o then r ++ [o] else r) := by
      unfold admitShortOrder
      by_cases hd : o.timestamp + t.cfg.latency ≤ t.current_timestamp <;>
        by_cases hm : o.qty * o.price < liquidationMargin t c <;>
          simp [hd, hm, dueB, marginB, liquidationMargin]
    by_cases hd : dueB t o = true <;> by_cases hm : marginB t c o = true
    · have ih := foldl_admitShortOrder c l (handle_order_update t o) (r ++ [o])
      simp [hstep, hd, hm, ih.1, ih.2.1, ih.2.2, List.filter_cons]
    · have ih := foldl_admitShortOrder c l t (r ++ [o])
      simp [hstep, hd, hm, ih.1, ih.2.1, ih.2.2, List.filter_cons]
    · have ih := foldl_admitShortOrder c l t r
      simp [hstep, hd, hm, ih.1, ih.2.1, ih.2.2, List.filter_cons]
    · have ih := foldl_admitShortOrder c l t r
      simp [hstep, hd, hm, ih.1, ih.2.1, ih.2.2, List.filter_cons]

/-- On a duplicate-free list, deleting by the identities of the `p`-filtered
sublist is the same as keeping the non-`p` elements. -/
theorem filter_not_any_sameIdentity (l : List Order) (p : Order → Bool)
    (h : (l.map idKey).Nodup) :
    l.filter (fun b => !((l.filter p).any (fun rr => sameIdentity b rr)))
      = l.filter (fun b => !(p b)) := by
  apply List.filter_congr
  intro b hb
  have : ((l.filter p).any (fun rr => sameIdentity b rr)) = p b := by
    rcases hp : p b with _ | _
    · rw [List.any_eq_false]
      intro rr hrr
      obtain ⟨hrl, hpr⟩ := List.mem_filter.mp hrr
      rcases hq : sameIdentity b rr with _ | _
      · exact Bool.false_ne_true
      · have hbe : b = rr :=
          List.inj_on_of_nodup_map h hb hrl ((sameIdentity_iff b rr).mp hq)
        rw [hbe, hpr] at hp
        exact absurd hp (by simp)
    · rw [List.any_eq_true]
      exact ⟨b, List.mem_filter.mpr ⟨hb, hp⟩, by simp [sameIdentity]⟩
  rw [this]

/-- C4.  For either pending queue: orders whose latency has not expired stay
in the queue; every due order is removed from the queue (for duplicate-free
queues); and `handle_order_update` is invoked exactly for the due orders that
pass the margin check, in queue order — the rest are dropped with no
emission. -/
theorem pending_admission (s : BotState) (c : Candle) :
    ((admitLong s c).events
        = s.events ++ (s.orders_to_execute.long.filter
            (fun o => dueB s o && marginB s c o)).map Event.orderUpdate) ∧
    ((admitLong s c).orders_to_execute.short = s.orders_to_execute.short) ∧
    ((s.orders_to_execute.long.map idKey).Nodup →
      (admitLong s c).orders_to_execute.long
        = s.orders_to_execute.long.filter (fun o => !(dueB s o))) ∧
    ((admitShort s c).events
        = s.events ++ (s.orders_to_execute.short.filter
            (fun o => dueB s o && marginB s c o)).map Event.orderUpdate) ∧
    ((admitShort s c).orders_to_execute.long = s.orders_to_execute.long) ∧
    ((s.orders_to_execute.short.map idKey).Nodup →
      (admitShort s c).orders_to_execute.short
        = s.orders_to_execute.short.filter (fun o => !(dueB s o))) := by
  obtain ⟨he, hr, hq⟩ := foldl_admitLongOrder c s.orders_to_execute.long s []
  obtain ⟨he', hr', hq'⟩ := foldl_admitShortOrder c s.orders_to_execute.short s []
  refine ⟨?_, ?_, ?_, ?_, ?_, ?_⟩
  · simpa [admitLong] using he
  · simp [admitLong, OrderList.delete_long, hq]
  · intro hnd
    simp only [admitLong, OrderList.delete_long, hq, hr, List.nil_append]
    exact filter_not_any_sameIdentity s.orders_to_execute.long (dueB s) hnd
  · simpa [admitShort] using he'
  · simp [admitShort, OrderList.delete_short, hq']
  · intro hnd
    simp only [admitShort, OrderList.delete_short, hq', hr', List.nil_append]
    exact filter_not_any_sameIdentity s.orders_to_execute.short (dueB s) hnd

unseal Rat.sub Rat.add Rat.mul Rat.inv Rat.ofScientific in
/-- Witness for C4: in the admission scenario the due pending order is
admitted (one emission) and removed from the queue. -/
theorem pending_admission_witness :
    (admitLong sAdmit cPartial).events
        = sAdmit.events ++ (sAdmit.orders_to_execute.long.filter
            (fun o => dueB sAdmit o && marginB sAdmit cPartial o)).map Event.orderUpdate ∧
    (admitLong sAdmit cPartial).orders_to_execute.long
        = sAdmit.orders_to_execute.long.filter (fun o => !(dueB sAdmit o)) := by
  exact ⟨(pending_admission sAdmit cPartial).1,
    (pending_admission sAdmit cPartial).2.2.1 (by decide)⟩

/-! ## C6: filled short orders leave the short book; long book untouched -/

/-- A non-`NEW` book transition never introduces an order with the watched
identity. -/
theorem bookTransform_absence (k oE : Order) (l : List Order)
    (hne : (oE.action == NEW) = false)
    (h : ∀ x ∈ l, sameIdentity x k = false) :
    ∀ x ∈ bookTransform oE l, sameIdentity x k = false := by
  unfold bookTransform
  rw [hne]
  simp only [Bool.false_eq_true, if_false]
  split_ifs with h1 h2
  · exact fun x hx => h x (List.mem_of_mem_filter hx)
  · intro x hx
    obtain ⟨y, hy, hxy⟩ := List.mem_map.mp hx
    by_cases hs : sameIdentity y oE = true <;>
      simp only [hs, ite_true, ite_false, Bool.false_eq_true, if_false] at hxy <;>
      rw [← hxy] <;> simpa [sameIdentity] using h y hy
  · exact h

/-- Absence of an identity from the short book is preserved by any routed
non-`NEW` transition. -/
theorem applyBook_absence_short (k oE : Order) (ob : OrderList)
    (hne : (oE.action == NEW) = false)
    (h : ∀ x ∈ ob.short, sameIdentity x k = false) :
    ∀ x ∈ (applyBook oE (bookTransform oE) ob).short, sameIdentity x k = false := by
  unfold applyBook
  split_ifs
  · exact h
  · exact bookTransform_absence k oE ob.short hne h
  · exact h

/-- One short-book matching iteration never reintroduces an identity that is
absent from the short book. -/
theorem processShortOrder_absence (c : Candle) (acc : BotState × List Order)
    (b k : Order)
    (h : ∀ x ∈ acc.1.open_orders.short, sameIdentity x k = false) :
    ∀ x ∈ (processShortOrder c acc b).1.open_orders.short, sameIdentity x k = false := by
  unfold processShortOrder
  by_cases ht : shortTriggered c b
  · by_cases hf : b.qty ≤ c.volume
    · simp only [ht, hf, ite_true, if_true]
      simp only [handle_account_update_open_orders]
      exact applyBook_absence_short k _ acc.1.open_orders (by simp [FILLED, NEW]) h
    · simp only [ht, hf, ite_true, ite_false, if_true, if_false]
      simp only [handle_account_update_open_orders]
      exact applyBook_absence_short k _ acc.1.open_orders
        (by simp [PARTIALLY_FILLED, NEW]) h
  · simp only [ht, Bool.false_eq_true, ite_false, if_false]
    exact h

/-- Absence from the short book is preserved by the whole matching fold. -/
theorem foldl_processShortOrder_absence (c : Candle) (k : Order) :
    ∀ (l : List Order) (acc : BotState × List Order),
      (∀ x ∈ acc.1.open_orders.short, sameIdentity x k = false) →
      ∀ x ∈ ((l.foldl (processShortOrder c) acc).1).open_orders.short,
        sameIdentity x k = false
  | [], _, h => h
  | b :: l, acc, h => by
    have step := processShortOrder_absence c acc b k h
    simpa using foldl_processShortOrder_absence c k l (processShortOrder c acc b) step

/-- The open-book effect of `handle_order_update`, exposed for the removal
lemmas. -/
theorem handle_order_update_open_orders (s : BotState) (o : Order) :
    (handle_order_update s o).open_orders
      = applyBook o (bookTransform o) s.open_orders := rfl

/-- A `FILLED` transition routed to the short book removes every order with
the filled order's identity. -/
theorem applyBook_filled_removes_short (oE : Order) (ob : OrderList)
    (hps : oE.position_side = SHORT) (ha : oE.action = FILLED) :
    ∀ x ∈ (applyBook oE (bookTransform oE) ob).short, sameIdentity x oE = false := by
  unfold applyBook bookTransform
  rw [hps, ha]
  simp only [show ((SHORT : ℕ) == LONG) = false by decide,
    show ((SHORT : ℕ) == SHORT) = true by decide,
    show ((FILLED : ℕ) == NEW) = false by decide,
    show (((FILLED : ℕ) == FILLED) || ((FILLED : ℕ) == CANCELED)
        || ((FILLED : ℕ) == LQ)) = true by decide,
    Bool.false_eq_true, if_false, if_true]
  intro x hx
  have hp := (List.mem_filter.mp hx).2
  rcases hq : sameIdentity x oE with _ | _
  · rfl
  · rw [hq] at hp
    simp at hp

/-- Processing a fully filled, triggered short-book order removes its
identity from the short book. -/
theorem processShortOrder_removes (c : Candle) (acc : BotState × List Order)
    (b : Order) (ht : shortTriggered c b = true) (hf : b.qty ≤ c.volume)
    (hps : b.position_side = SHORT) :
    ∀ x ∈ (processShortOrder c acc b).1.open_orders.short, sameIdentity x b = false := by
  unfold processShortOrder
  simp only [ht, hf, ite_true, if_true, handle_account_update_open_orders,
    handle_order_update_open_orders]
  by_cases hm : (b.type == MARKET) = true
  · simp only [hm, ite_true, if_true]
    intro x hx
    exact applyBook_filled_removes_short
      { b with price := marketFillPrice acc.1 c, action := FILLED }
      acc.1.open_orders hps rfl x hx
  · simp only [hm, Bool.false_eq_true, ite_false, if_false]
    intro x hx
    exact applyBook_filled_removes_short { b with action := FILLED }
      acc.1.open_orders hps rfl x hx

/-- A short-sided transition leaves the long book unchanged. -/
theorem applyBook_long_of_short (oE : Order) (f : List Order → List Order)
    (ob : OrderList) (hps : oE.position_side = SHORT) :
    (applyBook oE f ob).long = ob.long := by
  unfold applyBook
  rw [hps]
  simp [show ((SHORT : ℕ) == LONG) = false by decide,
    show ((SHORT : ℕ) == SHORT) = true by decide]

/-- One short-book matching iteration on a short-sided order leaves the long
book unchanged. -/
theorem processShortOrder_long_book (c : Candle) (acc : BotState × List Order)
    (b : Order) (hps : b.position_side = SHORT) :
    (processShortOrder c acc b).1.open_orders.long = acc.1.open_orders.long := by
  unfold processShortOrder
  by_cases ht : (shortTriggered c b) = true
  · by_cases hf : b.qty ≤ c.volume <;>
      by_cases hm : (b.type == MARKET) = true <;>
      simp only [ht, hf, hm, ite_true, ite_false, Bool.false_eq_true, if_true, if_false,
        handle_account_update_open_orders, handle_order_update_open_orders] <;>
      exact applyBook_long_of_short _ _ _ hps
  · simp [ht]

/-- The removal list grows by at most the processed order. -/
theorem processShortOrder_rem (c : Candle) (acc : BotState × List Order) (b : Order) :
    (processShortOrder c acc b).2 = acc.2 ∨
    (processShortOrder c acc b).2 = acc.2 ++ [b] := by
  unfold processShortOrder
  by_cases ht : (shortTriggered c b) = true
  · by_cases hf : b.qty ≤ c.volume <;> simp [ht, hf]
  · simp [ht]

/-- Over a short-sided book, the matching fold leaves the long book unchanged
and only collects short-sided orders for removal. -/
theorem foldl_processShortOrder_long_book (c : Candle) :
    ∀ (l : List Order) (acc : BotState × List Order),
      (∀ b ∈ l, b.position_side = SHORT) →
      ((l.foldl (processShortOrder c) acc).1.open_orders.long
          = acc.1.open_orders.long) ∧
      (∀ r ∈ (l.foldl (processShortOrder c) acc).2, r ∈ acc.2 ∨ r.position_side = SHORT)
  | [], acc, _ => ⟨rfl, fun r hr => Or.inl hr⟩
  | bh :: l, acc, hl => by
    have h1 := processShortOrder_long_book c acc bh (hl bh (by simp))
    have h2 := processShortOrder_rem c acc bh
    have ih := foldl_processShortOrder_long_book c l (processShortOrder c acc bh)
      (fun x hx => hl x (by simp [hx]))
    refine ⟨by rw [List.foldl_cons, ih.1, h1], ?_⟩
    intro rr hrr
    rcases ih.2 rr (by simpa using hrr) with hin | hsh
    · rcases h2 with h2 | h2
      · rw [h2] at hin
        exact Or.inl hin
      · rw [h2] at hin
        rcases List.mem_append.mp hin with h | h
        · exact Or.inl h
        · have he := List.mem_singleton.mp h
          rw [he]
          exact Or.inr (hl bh (by simp))
    · exact Or.inr hsh

/-- C6.  When every short-book order is short-sided and every long-book order
is long-sided: short-book matching leaves the long open-order book unchanged
(the source's trailing `delete_long` call removes nothing from it), and any
short order whose fill completes (triggered with `volume ≥ qty`, so its
action becomes `FILLED`) is gone from the short open-order book at the end of
short-book matching. -/
theorem short_book_removal (s : BotState) (c : Candle)
    (hS : ∀ b ∈ s.open_orders.short, b.position_side = SHORT)
    (hL : ∀ b ∈ s.open_orders.long, b.position_side = LONG) :
    (matchShort s c).open_orders.long = s.open_orders.long ∧
    (∀ b ∈ s.open_orders.short, shortTriggered c b = true → b.qty ≤ c.volume →
      ∀ x ∈ (matchShort s c).open_orders.short, sameIdentity x b = false) := by
  have hfold := foldl_processShortOrder_long_book c s.open_orders.short (s, []) hS
  constructor
  · show (OrderList.delete_long _ _).long = _
    simp only [OrderList.delete_long]
    rw [hfold.1]
    apply List.filter_eq_self.mpr
    intro b hb
    simp only [Bool.not_eq_eq_eq_not, Bool.not_true, List.any_eq_false]
    intro r hrrem hq
    rcases hfold.2 r hrrem with h | h
    · exact absurd h (List.not_mem_nil r)
    · have hik := (sameIdentity_iff b r).mp hq
      have hbl := hL b hb
      simp only [idKey, Prod.mk.injEq] at hik
      rw [hbl, h] at hik
      exact absurd hik.2 (by decide)
  · intro b hb htrig hfull x hx
    obtain ⟨l1, l2, hsplit⟩ := List.append_of_mem hb
    have key :
        ∀ y ∈ (List.foldl (processShortOrder c) (s, []) s.open_orders.short).1.open_orders.short,
          sameIdentity y b = false := by
      rw [hsplit, List.foldl_append, List.foldl_cons]
      exact foldl_processShortOrder_absence c b l2 _
        (processShortOrder_removes c _ b htrig hfull (hS b hb))
    exact key x hx

unseal Rat.sub Rat.add Rat.mul Rat.inv Rat.ofScientific in
/-- Witness for C6: in the short-fill scenario the hypotheses hold, the long
book is unchanged and the filled short order's identity is gone. -/
theorem short_book_removal_witness :
    (matchShort sShortFill cShortFill).open_orders.long
        = sShortFill.open_orders.long ∧
    (∀ x ∈ (matchShort sShortFill cShortFill).open_orders.short,
        sameIdentity x oShortFill = false) := by
  refine ⟨(short_book_removal sShortFill cShortFill (by decide) (by decide)).1, ?_⟩
  exact (short_book_removal sShortFill cShortFill (by decide) (by decide)).2
    oShortFill (by decide) (by decide) (by decide)

/-! ## C9: driver cadence, windows, and halting -/

/-- Folds of config-preserving steps preserve the config. -/
theorem foldl_cfg (f : BotState × List Order → Order → BotState × List Order)
    (hf : ∀ acc o, ((f acc o).1).cfg = acc.1.cfg) :
    ∀ (l : List Order) (acc : BotState × List Order),
      ((l.foldl f acc).1).cfg = acc.1.cfg
  | [], _ => rfl
  | o :: l, acc => by rw [List.foldl_cons, foldl_cfg f hf l (f acc o), hf]

theorem processLongOrder_cfg (c : Candle) (acc : BotState × List Order) (o : Order) :
    ((processLongOrder c acc o).1).cfg = acc.1.cfg := by
  unfold processLongOrder
  by_cases ht : (longTriggered c o) = true
  · by_cases hf : o.qty ≤ c.volume <;> simp [ht, hf]
  · simp [ht]

theorem processShortOrder_cfg (c : Candle) (acc : BotState × List Order) (o : Order) :
    ((processShortOrder c acc o).1).cfg = acc.1.cfg := by
  unfold processShortOrder
  by_cases ht : (shortTriggered c o) = true
  · by_cases hf : o.qty ≤ c.volume <;> simp [ht, hf]
  · simp [ht]

theorem admitLongOrder_cfg (c : Candle) (acc : BotState × List Order) (o : Order) :
    ((admitLongOrder c acc o).1).cfg = acc.1.cfg := by
  unfold admitLongOrder
  by_cases hd : o.timestamp + acc.1.cfg.latency ≤ acc.1.current_timestamp
  · by_cases hm : o.qty * o.price < calculate_available_margin acc.1.balance
        acc.1.position_long.size acc.1.position_long.price acc.1.position_short.size
        acc.1.position_short.price c.close false 1 acc.1.cfg.leverage <;>
      simp [hd, hm]
  · simp [hd]

theorem admitShortOrder_cfg (c : Candle) (acc : BotState × List Order) (o : Order) :
    ((admitShortOrder c acc o).1).cfg = acc.1.cfg := by
  unfold admitShortOrder
  by_cases hd : o.timestamp + acc.1.cfg.latency ≤ acc.1.current_timestamp
  · by_cases hm : o.qty * o.price < calculate_available_margin acc.1.balance
        acc.1.position_long.size acc.1.position_long.price acc.1.position_short.size
        acc.1.position_short.price c.close false 1 acc.1.cfg.leverage <;>
      simp [hd, hm]
  · simp [hd]

theorem matchLong_cfg (s : BotState) (c : Candle) : (matchLong s c).cfg = s.cfg :=
  foldl_cfg _ (processLongOrder_cfg c) s.open_orders.long (s, [])

theorem matchShort_cfg (s : BotState) (c : Candle) : (matchShort s c).cfg = s.cfg :=
  foldl_cfg _ (processShortOrder_cfg c) s.open_orders.short (s, [])

theorem admitLong_cfg (s : BotState) (c : Candle) : (admitLong s c).cfg = s.cfg :=
  foldl_cfg _ (admitLongOrder_cfg c) s.orders_to_execute.long (s, [])

theorem admitShort_cfg (s : BotState) (c : Candle) : (admitShort s c).cfg = s.cfg :=
  foldl_cfg _ (admitShortOrder_cfg c) s.orders_to_execute.short (s, [])

theorem liquidate_cfg (s : BotState) (c : Candle) : (liquidate s c).cfg = s.cfg := by
  unfold liquidate
  by_cases hl : s.position_long.size = 0 <;> by_cases hs2 : s.position_short.size = 0 <;>
    simp [hl, hs2]

/-- The per-candle step never changes the configuration. -/
theorem execute_exchange_logic_cfg (s : BotState) (c : Candle) :
    ((execute_exchange_logic s c).1).cfg = s.cfg := by
  unfold execute_exchange_logic
  by_cases h : liquidationMargin s c ≤ 0
  · simp [h, liquidate_cfg]
  · simp [h, admitShort_cfg, admitLong_cfg, matchShort_cfg, matchLong_cfg]

/-- A decide-trace decomposition shifts across a buffered candle. -/
theorem covers_shift (es : List (ℚ × List Candle)) (buf : List Candle) (t : ℚ)
    (c : Candle) (rows : List (ℚ × Candle))
    (h : Covers (buf ++ [c]) rows es) : Covers buf ((t, c) :: rows) es := by
  cases es with
  | nil => trivial
  | cons e es' =>
    obtain ⟨t', w⟩ := e
    obtain ⟨pre, c', rest, hrows, hw, hcov⟩ := h
    exact ⟨(t, c) :: pre, c', rest, by simp [hrows], by simp [hw], hcov⟩

/-- C9.  For any strategy `dec` that does not change the call interval: the
driver trace satisfies `Gaps` (no invocation before `call_interval * 1000`
has elapsed since `last_update`), `Covers` (each invocation receives exactly
the candles buffered since the previous invocation, or since the start, and
the buffer then restarts empty), and `HaltLast` (nothing — in particular no
strategy invocation — follows a halting step). -/
theorem driver_cadence (dec : BotState → List Candle → BotState)
    (hdec : ∀ t w, (dec t w).cfg.call_interval = t.cfg.call_interval) :
    ∀ (rows : List (ℚ × Candle)) (s : BotState) (buf : List Candle) (lu : ℚ),
      Gaps s.cfg.call_interval lu (decEvents (start_websocket dec s buf lu rows)) ∧
      Covers buf rows (decEvents (start_websocket dec s buf lu rows)) ∧
      HaltLast (start_websocket dec s buf lu rows)
  | [], _, _, _ => ⟨trivial, trivial, trivial⟩
  | (ts, c) :: rest, s, buf, lu => by
    simp only [start_websocket]
    by_cases hh : (execute_exchange_logic { s with current_timestamp := ts } c).2 = false
    · simp only [hh, if_true, ite_true]
      exact ⟨trivial, trivial, rfl⟩
    · simp only [hh, if_false, ite_false]
      by_cases hc : s.cfg.call_interval * 1000 ≤ ts - lu
      · simp only [hc, if_true, ite_true]
        have ih := driver_cadence dec hdec rest
          (dec (execute_exchange_logic { s with current_timestamp := ts } c).1 (buf ++ [c]))
          [] ts
        have hcfg : (dec (execute_exchange_logic { s with current_timestamp := ts } c).1
            (buf ++ [c])).cfg.call_interval = s.cfg.call_interval := by
          rw [hdec, execute_exchange_logic_cfg]
        refine ⟨?_, ?_, ?_⟩
        · refine ⟨hc, ?_⟩
          have hg := ih.1
          rwa [hcfg] at hg
        · exact ⟨[], c, rest, rfl, by simp, ih.2.1⟩
        · exact ih.2.2
      · simp only [hc, if_false, ite_false]
        have ih := driver_cadence dec hdec rest
          (execute_exchange_logic { s with current_timestamp := ts } c).1 (buf ++ [c]) lu
        refine ⟨?_, covers_shift _ buf ts c rest ih.2.1, ih.2.2⟩
        have hg := ih.1
        rwa [execute_exchange_logic_cfg] at hg

unseal Rat.sub Rat.add Rat.mul Rat.inv Rat.ofScientific in
/-- Witness for C9: an interval-preserving strategy driven over two candles
at `t=1000` and `t=2000` with `call_interval = 1` (seconds) and
`last_update = 0`.  Both rows are at least 1000 ms past the previous update,
so the run invokes the strategy twice, each time with exactly the one candle
buffered since the previous invocation; the computed trace makes the
`Gaps`/`Covers`/`HaltLast` conclusions of `driver_cadence` concrete and
non-vacuous. -/
theorem driver_cadence_witness :
    (start_websocket (fun t _ => t) stBase [] 0 [(1000, cPartial), (2000, cShortFill)]
        = [WSEv.decideEv 1000 [cPartial], WSEv.decideEv 2000 [cShortFill]]) ∧
    Gaps stBase.cfg.call_interval 0
        (decEvents (start_websocket (fun t _ => t) stBase [] 0
          [(1000, cPartial), (2000, cShortFill)])) ∧
    Covers [] [(1000, cPartial), (2000, cShortFill)]
        (decEvents (start_websocket (fun t _ => t) stBase [] 0
          [(1000, cPartial), (2000, cShortFill)])) ∧
    HaltLast (start_websocket (fun t _ => t) stBase [] 0
        [(1000, cPartial), (2000, cShortFill)]) := by
  have h := driver_cadence (fun t _ => t) (fun _ _ => rfl)
    [(1000, cPartial), (2000, cShortFill)] stBase [] 0
  exact ⟨by decide, h.1, h.2.1, h.2.2⟩

/-! ## C10: intake orders with an unknown position side are discarded -/

/-- The intake partition fold appends the long-sided and short-sided orders
to the two accumulators, in order, and drops everything else. -/
theorem foldl_partitionStep :
    ∀ (l : List Order) (a b : List Order),
      l.foldl partitionStep (a, b)
        = (a ++ l.filter (fun o => o.position_side == LONG),
           b ++ l.filter (fun o => o.position_side == SHORT))
  | [], a, b => by simp
  | o :: l, a, b => by
    by_cases h1 : (o.position_side == LONG) = true
    · have h2 : (o.position_side == SHORT) = false := by
        simp only [beq_iff_eq] at h1 ⊢
        rw [h1]
        decide
      simp [partitionStep, h1, h2, foldl_partitionStep l (a ++ [o]) b, List.filter_cons]
    · by_cases h2 : (o.position_side == SHORT) = true
      · simp [partitionStep, h1, h2, foldl_partitionStep l a (b ++ [o]), List.filter_cons]
      · simp [partitionStep, h1, h2, foldl_partitionStep l a b, List.filter_cons]

/-- C10.  `create_orders` and `cancel_orders` stamp every intake order and
append exactly the `LONG`-sided ones to the long pending queue and the
`SHORT`-sided ones to the short pending queue, emitting nothing; an order
whose position side is neither value is silently discarded and the queues are
unchanged by it. -/
theorem intake_partitioning (s : BotState) (l : List Order) :
    ((create_orders s l).orders_to_execute.long
        = s.orders_to_execute.long
          ++ (l.map (stampOrder s NEW)).filter (fun o => o.position_side == LONG)) ∧
    ((create_orders s l).orders_to_execute.short
        = s.orders_to_execute.short
          ++ (l.map (stampOrder s NEW)).filter (fun o => o.position_side == SHORT)) ∧
    ((cancel_orders s l).orders_to_execute.long
        = s.orders_to_execute.long
          ++ (l.map (stampOrder s CANCELED)).filter (fun o => o.position_side == LONG)) ∧
    ((cancel_orders s l).orders_to_execute.short
        = s.orders_to_execute.short
          ++ (l.map (stampOrder s CANCELED)).filter (fun o => o.position_side == SHORT)) ∧
    ((create_orders s l).events = s.events) ∧
    ((cancel_orders s l).events = s.events) ∧
    ((∀ o ∈ l, o.position_side ≠ LONG ∧ o.position_side ≠ SHORT) →
      (create_orders s l).orders_to_execute = s.orders_to_execute ∧
      (cancel_orders s l).orders_to_execute = s.orders_to_execute) := by
  have hc := foldl_partitionStep (l.map (stampOrder s NEW)) [] []
  have hx := foldl_partitionStep (l.map (stampOrder s CANCELED)) [] []
  refine ⟨?_, ?_, ?_, ?_, rfl, rfl, ?_⟩
  · simp [create_orders, OrderList.add_long, OrderList.add_short, hc]
  · simp [create_orders, OrderList.add_long, OrderList.add_short, hc]
  · simp [cancel_orders, OrderList.add_long, OrderList.add_short, hx]
  · simp [cancel_orders, OrderList.add_long, OrderList.add_short, hx]
  · intro hbad
    have hnil : ∀ (a : ℕ) (k : ℕ), k = NEW ∨ k = CANCELED → a = LONG ∨ a = SHORT →
        (l.map (stampOrder s k)).filter (fun o => o.position_side == a) = [] := by
      intro a k _ _
      apply List.filter_eq_nil_iff.mpr
      intro o ho
      obtain ⟨y, hy, rfl⟩ := List.mem_map.mp ho
      have hb := hbad y hy
      simp only [stampOrder, beq_iff_eq]
      rename_i ha
      rcases ha with rfl | rfl
      · simpa using hb.1
      · simpa using hb.2
    constructor
    · simp [create_orders, OrderList.add_long, OrderList.add_short, hc,
        hnil LONG NEW (Or.inl rfl) (Or.inl rfl), hnil SHORT NEW (Or.inl rfl) (Or.inr rfl)]
    · simp [cancel_orders, OrderList.add_long, OrderList.add_short, hx,
        hnil LONG CANCELED (Or.inr rfl) (Or.inl rfl),
        hnil SHORT CANCELED (Or.inr rfl) (Or.inr rfl)]

/-- Witness for C10: an order with position side 0 leaves both intake queues
unchanged. -/
theorem intake_partitioning_witness :
    (create_orders stBase [oBadSide]).orders_to_execute = stBase.orders_to_execute ∧
    (cancel_orders stBase [oBadSide]).orders_to_execute = stBase.orders_to_execute :=
  (intake_partitioning stBase [oBadSide]).2.2.2.2.2.2 (by decide)

end Backtest